import Mathlib

/-!
Shallow embedding of the newScrape lead-generation pipeline.

The embedding models, straight from the TypeScript source:
  * the agency classifier `isRecruitmentAgency` and the lead scorer
    `calculateLeadScore` of the worker module;
  * the per-listing processing step of the worker loop (agency skip,
    enrichment, scoring, persistence decision);
  * the pagination loop of `LinkedInScraper.searchJobs`;
  * the cancellation handler (`DELETE /api/jobs/[id]`);
  * the submission handler (`POST /api/jobs`) with its zod schema;
  * the progress reporting, the `leadsGenerated` counter and the
    export-marking step of the worker.

JavaScript strings are modelled as Lean `String`s, with the operations
(`toLowerCase`, `includes`, truthiness, `.length`) defined over the
underlying character list so that every definition evaluates inside the
kernel.  JavaScript numbers used by the scorer and counters are integers
throughout the relevant code paths and are modelled as `ℤ`/`ℕ`;
the fractional progress values (`0.6` multiplier, per-listing ratio)
are modelled as `ℚ` (the multiplications involved are monotone, which is
all the progress claims depend on).
-/

set_option maxRecDepth 8000

namespace NewScrape

/-- JavaScript `String.prototype.toLowerCase`, modelled character-wise on
the character list of the string. -/
def lowerL (s : List Char) : List Char := s.map Char.toLower

/-- JavaScript `hay.includes(needle)`: `needle` occurs as a contiguous
substring of `hay`.  Executable: scan every tail of `hay`. -/
def containsSub (hay needle : List Char) : Bool :=
  hay.tails.any (fun t => needle.isPrefixOf t)

/-- JavaScript truthiness of an optional string (`undefined` and `""` are
falsy, every non-empty string is truthy). -/
def truthy : Option String → Bool
  | none => false
  | some s => !s.data.isEmpty

/-- The hardcoded `RECRUITMENT_AGENCY_KEYWORDS` list of the worker module. -/
def RECRUITMENT_AGENCY_KEYWORDS : List String :=
  ["recruitment", "recruiter", "talent", "staffing", "headhunter",
   "executive search", "consulting", "temp agency", "placement",
   "resource solutions", "people solutions", "workforce",
   "reed", "adecco", "randstad", "hays", "michael page",
   "robert half", "kelly services", "manpower", "allegis"]

/-- `isRecruitmentAgency(companyName)`: lowercase the company name and test
whether any configured keyword (lowercased) occurs in it as a substring. -/
def isRecruitmentAgency (companyName : String) : Bool :=
  RECRUITMENT_AGENCY_KEYWORDS.any (fun keyword =>
    containsSub (lowerL companyName.data) (lowerL keyword.data))

/-- The `hiringManager` sub-object of a `JobListing`. -/
structure HiringManager where
  name : Option String := none
  title : Option String := none
  linkedinUrl : Option String := none
  email : Option String := none
deriving DecidableEq

/-- The `JobListing` record of `linkedin-scraper.ts`. -/
structure JobListing where
  title : String
  company : String
  location : String
  url : String
  description : Option String := none
  salary : Option String := none
  postedDate : Option String := none
  hiringManager : Option HiringManager := none
deriving DecidableEq

/-- The `qualityKeywords` list inside `calculateLeadScore`. -/
def qualityKeywords : List String :=
  ["senior", "lead", "manager", "director", "head of"]

/-- The JavaScript condition `job.description && job.description.length > 200`. -/
def descriptionOver200 (job : JobListing) : Bool :=
  match job.description with
  | none => false
  | some d => !d.data.isEmpty && decide (d.data.length > 200)

/-- The JavaScript condition
`qualityKeywords.some(keyword => titleLower.includes(keyword))`. -/
def titleHasSeniorityKeyword (job : JobListing) : Bool :=
  qualityKeywords.any (fun keyword =>
    containsSub (lowerL job.title.data) keyword.data)

/-- The running total of `calculateLeadScore` before the final clamp:
base 50, the agency adjustment, and the detail bonuses, applied in source
order. -/
def rawLeadScore (job : JobListing) : ℤ :=
  let score1 : ℤ := 50 + (if !(isRecruitmentAgency job.company) then 30 else -20)
  let score2 : ℤ := score1 + (if truthy (job.hiringManager.bind HiringManager.name) then 15 else 0)
  let score3 : ℤ := score2 + (if truthy (job.hiringManager.bind HiringManager.email) then 20 else 0)
  let score4 : ℤ := score3 + (if truthy job.salary then 10 else 0)
  let score5 : ℤ := score4 + (if descriptionOver200 job then 5 else 0)
  score5 + (if titleHasSeniorityKeyword job then 10 else 0)

/-- `calculateLeadScore(job)`: the running total clamped by
`Math.max(0, Math.min(100, score))`. -/
def calculateLeadScore (job : JobListing) : ℤ :=
  max 0 (min 100 (rawLeadScore job))

/-- Modelled from the spec's words (the score contract of section 4.2),
for refinement comparison against `calculateLeadScore`: the clamp to
[0,100] of base 50, +30 if not an agency and −20 if an agency, +15 for a
contact name, +20 for a contact email, +10 for a salary string, +5 for a
description over 200 characters, +10 for a seniority keyword in the title. -/
def specLeadScore (job : JobListing) : ℤ :=
  max 0 (min 100 (50
    + (if isRecruitmentAgency job.company then -20 else 30)
    + (if truthy (job.hiringManager.bind HiringManager.name) then 15 else 0)
    + (if truthy (job.hiringManager.bind HiringManager.email) then 20 else 0)
    + (if truthy job.salary then 10 else 0)
    + (if descriptionOver200 job then 5 else 0)
    + (if titleHasSeniorityKeyword job then 10 else 0)))

/-- A persisted `leads` row, with the fields the worker's insert fills in. -/
structure Lead where
  jobId : String
  fullName : Option String
  contactTitle : Option String
  email : Option String
  linkedinUrl : Option String
  jobTitle : String
  jobUrl : String
  jobLocation : String
  jobDescription : String
  jobSalary : Option String
  leadScore : ℤ
  isQualified : Bool
deriving DecidableEq

/-- The body of the worker's per-listing loop: skip the listing when
`excludeAgencies` is set and the company matches the agency classifier;
otherwise build the enhanced listing from the extracted description and
hiring-manager record, score it, and persist a `Lead` row exactly when the
score strictly exceeds 40.  Extraction results are passed in as arguments
(the extractor itself is I/O). -/
def processListing (excludeAgencies : Bool) (jobId : String) (jl : JobListing)
    (description : String) (hiringManager : Option HiringManager) : Option Lead :=
  if excludeAgencies && isRecruitmentAgency jl.company then none
  else
    let enhancedJob : JobListing :=
      { jl with description := some description, hiringManager := hiringManager }
    let leadScore := calculateLeadScore enhancedJob
    if leadScore > 40 then
      some { jobId := jobId
             fullName := hiringManager.bind HiringManager.name
             contactTitle := hiringManager.bind HiringManager.title
             email := hiringManager.bind HiringManager.email
             linkedinUrl := hiringManager.bind HiringManager.linkedinUrl
             jobTitle := jl.title
             jobUrl := jl.url
             jobLocation := jl.location
             jobDescription := description
             jobSalary := jl.salary
             leadScore := leadScore
             isQualified := true }
    else none

/-- The enhanced listing the worker scores: the discovered listing with the
extracted description and hiring manager filled in. -/
def enhance (jl : JobListing) (description : String)
    (hiringManager : Option HiringManager) : JobListing :=
  { jl with description := some description, hiringManager := hiringManager }

/-- Outcome of one iteration of the pagination loop in
`LinkedInScraper.searchJobs`: either the page fetch throws, or the page is
fetched, yielding its listings and whether a "Next" button was found. -/
inductive PageResult where
  | fetchError : PageResult
  | fetched : List JobListing → Bool → PageResult
deriving DecidableEq

/-- The accumulation of `searchJobs` over the successive loop iterations
(the input list has one entry per iteration, at most `maxPages` of them):
a fetch error is caught, logged and the loop continues with the next page;
a fetched page appends its listings, and the loop breaks after a fetched
page with no "Next" button. -/
def searchJobsPages : List PageResult → List JobListing
  | [] => []
  | .fetchError :: rest => searchJobsPages rest
  | .fetched ls true :: rest => ls ++ searchJobsPages rest
  | .fetched ls false :: _ => ls

/-- Modelled from the spec's words ("a fetch error for one page is logged
and treated as stop paginating"), for comparison against
`searchJobsPages`: identical accumulation except that a fetch error ends
pagination immediately. -/
def searchJobsPagesSpecStop : List PageResult → List JobListing
  | [] => []
  | .fetchError :: _ => []
  | .fetched ls true :: rest => ls ++ searchJobsPagesSpecStop rest
  | .fetched ls false :: _ => ls

/-- The `jobs.status` column. -/
inductive JobStatus where
  | pending | running | completed | failed | cancelled
deriving DecidableEq

/-- HTTP outcome of the cancellation handler `DELETE /api/jobs/[id]`. -/
inductive CancelResponse where
  | notFound      -- 404: no database row for the id
  | forbidden     -- 400: "Cannot cancel completed job"
  | cancelOk      -- 200: queue removal succeeded, status set to cancelled
  | serverError   -- 500: `cancelJob` returned false
deriving DecidableEq

/-- `cancelJob(jobId)` of the queue service: `getJob` finds the queue entry
and removes it (true), or finds nothing / throws (false). -/
def cancelJobQueue (queueHasJob : Bool) : Bool := queueHasJob

/-- The `DELETE /api/jobs/[id]` handler: 404 when the database row is
missing; 400 when its status is `completed`; otherwise attempt queue
removal, and on success set the status to `cancelled` (500 and no status
change when removal fails).  Returns the response and the job's status
after the call. -/
def deleteJob : Option JobStatus → Bool → CancelResponse × Option JobStatus
  | none, _ => (.notFound, none)
  | some .completed, _ => (.forbidden, some .completed)
  | some s, q =>
      if cancelJobQueue q then (.cancelOk, some .cancelled)
      else (.serverError, some s)

/-- The request payload field `searchCriteria` as the zod schema sees it:
the optional fields of the correct primitive types.  (A field of the wrong
JSON type is rejected by zod outright; the model covers presence and value
constraints, with JavaScript numbers as `ℚ`.) -/
structure RawSearchCriteria where
  keywords : Option String := none
  location : Option String := none
  experience : Option String := none
  jobType : Option String := none
  industry : Option String := none
  companySize : Option String := none
  excludeAgencies : Option Bool := none
  maxPages : Option ℚ := none

/-- `searchCriteriaSchema.safeParse` success: `keywords` and `location`
present with length ≥ 1 (`z.string().min(1)`), and `maxPages`, when
present, a number with `1 ≤ n ≤ 20` (`z.number().min(1).max(20)`). -/
def validateSearchCriteria (c : RawSearchCriteria) : Bool :=
  (match c.keywords with | some s => !s.data.isEmpty | none => false) &&
  (match c.location with | some s => !s.data.isEmpty | none => false) &&
  (match c.maxPages with | none => true | some n => decide (1 ≤ n) && decide (n ≤ 20))

/-- HTTP outcome of the submission handler `POST /api/jobs`. -/
inductive PostResponse where
  | badRequest                               -- 400: invalid search criteria
  | credsError                               -- 500: LinkedIn credentials missing
  | created (jobId : String) (status : JobStatus)  -- 200: job queued
deriving DecidableEq

/-- The `POST /api/jobs` handler: validate the criteria (400 before any
database write on failure), check the configured credentials (500 before
any database write when missing), then insert the job row with status
`pending` and return its id.  The second component is the created row's
initial status (`none` when no row was created). -/
def postJob (c : RawSearchCriteria) (credsConfigured : Bool) (newId : String) :
    PostResponse × Option JobStatus :=
  if !(validateSearchCriteria c) then (.badRequest, none)
  else if !credsConfigured then (.credsError, none)
  else (.created newId .pending, some .pending)

/-- JavaScript `Math.round` on the (exact) rational value: round half up. -/
def jsRound (q : ℚ) : ℤ := ⌊q + 1/2⌋

/-- The progress value `job.progress(10 + progress.progress * 0.6)` reported
while discovering page `i` (0-based) of `m`, where the scraper's callback
passes `Math.round(((i+1)/maxPages)*100)`. -/
def discVal (m i : ℕ) : ℚ :=
  10 + (jsRound ((((i : ℚ) + 1) / (m : ℚ)) * 100) : ℚ) * (6/10)

/-- Progress values emitted during the pagination loop, starting at loop
index `idx`: an errored page emits nothing (the callback sits after the
fetch) and the loop moves to the next index; a fetched page emits its
value, and a fetched page without a "Next" button is the last one. -/
def discoveryEvents (m : ℕ) : List PageResult → ℕ → List ℚ
  | [], _ => []
  | .fetchError :: rest, idx => discoveryEvents m rest (idx + 1)
  | .fetched _ true :: rest, idx => discVal m idx :: discoveryEvents m rest (idx + 1)
  | .fetched _ false :: _, idx => [discVal m idx]

/-- Outcome of one iteration of the worker's per-listing loop: skipped by
the agency filter (`continue` before any work), fully processed (with or
without a persisted lead), or failed during enrichment (error caught,
`continue`, before any persistence or progress update). -/
inductive ListingOutcome where
  | skippedAgency
  | processed (leadPersisted : Bool)
  | extractionError
deriving DecidableEq

/-- The progress value `70 + ((processedCount / jobListings.length) * 20)`
reported after the `c+1`-st fully processed listing out of `n` discovered. -/
def enrichVal (n c : ℕ) : ℚ :=
  70 + (((c : ℚ) + 1) / (n : ℚ)) * 20

/-- Progress values emitted during the per-listing loop: only fully
processed listings bump `processedCount` and report progress. -/
def enrichEvents (n : ℕ) : List ListingOutcome → ℕ → List ℚ
  | [], _ => []
  | .skippedAgency :: rest, c => enrichEvents n rest c
  | .extractionError :: rest, c => enrichEvents n rest c
  | .processed _ :: rest, c => enrichVal n c :: enrichEvents n rest (c + 1)

/-- Number of fully processed listings (`processedCount`) over a run. -/
def countProcessed : List ListingOutcome → ℕ
  | [] => 0
  | .processed _ :: rest => countProcessed rest + 1
  | .skippedAgency :: rest => countProcessed rest
  | .extractionError :: rest => countProcessed rest

/-- Number of persisted leads (`validLeads.length`) over a run. -/
def leadsCount : List ListingOutcome → ℕ
  | [] => 0
  | .processed true :: rest => leadsCount rest + 1
  | .processed false :: rest => leadsCount rest
  | .skippedAgency :: rest => leadsCount rest
  | .extractionError :: rest => leadsCount rest

/-- The full sequence of progress values over a completed run of the
worker: 0 at job creation, 10 after login, the discovery band, the
enrichment band, 90 before export when there are leads to export, and 100
at completion. -/
def progressEvents (m : ℕ) (pages : List PageResult)
    (outcomes : List ListingOutcome) : List ℚ :=
  (0 :: 10 :: (discoveryEvents m pages 0
      ++ enrichEvents outcomes.length outcomes 0
      ++ (if 0 < leadsCount outcomes then [90] else []))) ++ [100]

/-- The worker-loop state the `leadsGenerated` claim is about: the number
of `leads` rows inserted for the job, the in-memory `validLeads.length`,
and the `jobs.leadsGenerated` column. -/
structure LoopState where
  persistedLeadRows : ℕ
  validLeadsLen : ℕ
  leadsGeneratedDb : ℕ
deriving DecidableEq

/-- One iteration of the per-listing loop acting on the state: a fully
processed listing inserts a row and appends to `validLeads` exactly when it
qualifies, then writes `leadsGenerated := validLeads.length`; skipped and
errored listings touch nothing. -/
def stepListing (st : LoopState) : ListingOutcome → LoopState
  | .skippedAgency => st
  | .extractionError => st
  | .processed q =>
      let v := st.validLeadsLen + (if q then 1 else 0)
      let p := st.persistedLeadRows + (if q then 1 else 0)
      { persistedLeadRows := p, validLeadsLen := v, leadsGeneratedDb := v }

/-- The whole per-listing loop. -/
def runListings (st : LoopState) (los : List ListingOutcome) : LoopState :=
  los.foldl stepListing st

/-- The loop state when the job row is created (`leadsGenerated: 0`). -/
def initialLoopState : LoopState := ⟨0, 0, 0⟩

/-- A `leads` table row as the export-marking step sees it. -/
structure LeadRow where
  jobId : String
  jobUrl : String
  exportedToSheets : Bool
  exportedAt : Option ℕ
deriving DecidableEq

/-- The `set` clause of the export-marking update (time modelled as `ℕ`). -/
def markRow (t : ℕ) (r : LeadRow) : LeadRow :=
  { r with exportedToSheets := true, exportedAt := some t }

/-- One `db.update(leads).set(...).where(eq(leads.jobUrl, lead.jobUrl))`:
mark every table row whose `jobUrl` equals the given url. -/
def markExportedPass (url : String) (t : ℕ) (table : List LeadRow) : List LeadRow :=
  table.map (fun r => if r.jobUrl == url then markRow t r else r)

/-- The export-marking loop: one update per exported lead, keyed on that
lead's `jobUrl`. -/
def markExported (urls : List String) (t : ℕ) (table : List LeadRow) : List LeadRow :=
  urls.foldl (fun tb url => markExportedPass url t tb) table

/-- A non-agency listing with every score bonus present: used to check the
clamp (raw 140, clamped 100). -/
def fullBonusListing : JobListing :=
  { title := "Senior Finance Manager"
    company := "Acme Manufacturing Ltd"
    location := "London, England, United Kingdom"
    url := "https://www.linkedin.com/jobs/view/1001"
    description := some (String.mk (List.replicate 201 'a'))
    salary := some "£60,000 - £70,000"
    hiringManager := some { name := some "Jane Doe", email := some "jane@acme.example" } }

/-- An agency-company listing as discovered (no enrichment yet). -/
def agencyListing : JobListing :=
  { title := "Accountant"
    company := "Hays Recruitment"
    location := "London, England, United Kingdom"
    url := "https://www.linkedin.com/jobs/view/2002" }

/-- A hiring-manager record with name and email, enriching `agencyListing`
to a score of 65. -/
def agencyHM : HiringManager :=
  { name := some "Alex Smith", email := some "alex@hays.example" }

/-- A bonus-free agency listing after enrichment found nothing. -/
def bareAgencyListing : JobListing :=
  enhance agencyListing "" none

/-- Sample listing found on the page before a failing page. -/
def jlA : JobListing :=
  { title := "Financial Analyst", company := "Acme Manufacturing Ltd"
    location := "Bristol", url := "https://www.linkedin.com/jobs/view/3003" }

/-- Sample listing found on the page after a failing page. -/
def jlB : JobListing :=
  { title := "Management Accountant", company := "Beta Industries"
    location := "Leeds", url := "https://www.linkedin.com/jobs/view/4004" }

/-- A concrete pagination run: page 1 succeeds, page 2's fetch throws,
page 3 succeeds. -/
def pagesWithMidError : List PageResult :=
  [.fetched [jlA] true, .fetchError, .fetched [jlB] true]

/-- Two lead rows of two different jobs sharing one `jobUrl`. -/
def rowOfJobA : LeadRow :=
  { jobId := "job-a", jobUrl := "https://www.linkedin.com/jobs/view/5005"
    exportedToSheets := false, exportedAt := none }

/-- The other job's row with the same `jobUrl` as `rowOfJobA`. -/
def rowOfJobB : LeadRow :=
  { jobId := "job-b", jobUrl := "https://www.linkedin.com/jobs/view/5005"
    exportedToSheets := false, exportedAt := none }

/-- A submission payload with non-empty keywords and location and a
non-integer `maxPages` of 5/2. -/
def nonIntegerCriteria : RawSearchCriteria :=
  { keywords := some "finance accounting", location := some "United Kingdom"
    maxPages := some (5/2) }

/-- A plainly valid submission payload with `maxPages` absent. -/
def plainCriteria : RawSearchCriteria :=
  { keywords := some "finance accounting", location := some "United Kingdom" }

/-- Outcomes of the listing loop used by the progress witness run. -/
def sampleOutcomes : List ListingOutcome :=
  [.processed true, .skippedAgency, .processed false]

end NewScrape

namespace NewScrape

/-! ### Helper lemmas about the string model -/

theorem containsSub_iff_parts (hay needle : List Char) :
    containsSub hay needle = true ↔ ∃ p q, hay = p ++ needle ++ q := by
  unfold containsSub
  rw [List.any_eq_true]
  constructor
  · rintro ⟨t, ht, hp⟩
    rw [List.mem_tails] at ht
    rw [ List.isPrefixOf_iff_prefix] at hp
    obtain ⟨q, hq⟩ := hp
    obtain ⟨p, hp2⟩ := ht
    exact ⟨p, q, by rw [← hp2, ← hq, List.append_assoc]⟩
  · rintro ⟨p, q, rfl⟩
    refine ⟨needle ++ q, ?_, ?_⟩
    · rw [List.mem_tails]
      exact ⟨p, by rw [List.append_assoc]⟩
    · rw [ List.isPrefixOf_iff_prefix]
      exact ⟨q, rfl⟩

/-! ### C1: the lead score formula and its clamp -/

/-- C1: for every listing, `calculateLeadScore` equals the spec's formula
(base 50; +30 for a non-agency and −20 for an agency; +15 contact name;
+20 contact email; +10 salary; +5 description over 200 characters; +10
seniority keyword in the title; clamped to [0,100]); the output always
lies in [0,100]; and a non-agency listing with every bonus present scores
140 raw, clamped to 100. -/
theorem c1_lead_score_formula :
    (∀ job : JobListing,
        calculateLeadScore job = specLeadScore job ∧
        0 ≤ calculateLeadScore job ∧ calculateLeadScore job ≤ 100) ∧
    rawLeadScore fullBonusListing = 140 ∧
    calculateLeadScore fullBonusListing = 100 := by
  refine ⟨fun job => ⟨?_, ?_, ?_⟩, by decide, by decide⟩
  · unfold calculateLeadScore rawLeadScore specLeadScore
    cases h : isRecruitmentAgency job.company <;> simp [h]
  · exact le_max_left _ _
  · unfold calculateLeadScore
    have h := min_le_left (100 : ℤ) (rawLeadScore job)
    omega

/-! ### C4: the agency classifier -/

/-- C4: `isRecruitmentAgency` returns true exactly when the company name
contains one of the configured agency keywords as a substring, compared
case-insensitively (both sides lowercased); the function is a pure total
Boolean function of the name. -/
theorem c4_isAgency_iff_keyword (name : String) :
    isRecruitmentAgency name = true ↔
      ∃ kw ∈ RECRUITMENT_AGENCY_KEYWORDS,
        ∃ p q, lowerL name.data = p ++ lowerL kw.data ++ q := by
  unfold isRecruitmentAgency
  rw [List.any_eq_true]
  constructor
  · rintro ⟨kw, hkw, hc⟩
    exact ⟨kw, hkw, (containsSub_iff_parts _ _).mp hc⟩
  · rintro ⟨kw, hkw, hparts⟩
    exact ⟨kw, hkw, (containsSub_iff_parts _ _).mpr hparts⟩

/-! ### C2: the qualification threshold -/

/-- C2 counterexample: the claim's "persisted iff score > 40" fails for a
discovered listing as stated, because the agency-exclusion filter runs
before scoring: with `excludeAgencies` set, an agency listing scoring 65
(> 40) is still not persisted. -/
theorem c2_counterexample :
    calculateLeadScore (enhance agencyListing "" (some agencyHM)) = 65 ∧
    (65 : ℤ) > 40 ∧
    processListing true "J1" agencyListing "" (some agencyHM) = none := by
  decide

/-- C2 amended: for every discovered listing that is not skipped by the
agency-exclusion filter, a Lead row is persisted iff the computed score
strictly exceeds 40; a listing skipped by the filter is never persisted;
and an agency listing with no other bonus scores exactly 30 and is never
persisted.  The discard is silent in the model: `processListing` returns
`none` and records nothing. -/
theorem c2_threshold_amended (ex : Bool) (jobId : String) (jl : JobListing)
    (d : String) (hm : Option HiringManager) :
    (¬(ex = true ∧ isRecruitmentAgency jl.company = true) →
        ((processListing ex jobId jl d hm).isSome = true ↔
          40 < calculateLeadScore (enhance jl d hm))) ∧
    (ex = true → isRecruitmentAgency jl.company = true →
        processListing ex jobId jl d hm = none) ∧
    (isRecruitmentAgency jl.company = true →
      truthy (hm.bind HiringManager.name) = false →
      truthy (hm.bind HiringManager.email) = false →
      truthy jl.salary = false →
      descriptionOver200 (enhance jl d hm) = false →
      titleHasSeniorityKeyword (enhance jl d hm) = false →
        calculateLeadScore (enhance jl d hm) = 30 ∧
        processListing ex jobId jl d hm = none) := by
  refine ⟨?_, ?_, ?_⟩
  · intro hno
    have hb : (ex && isRecruitmentAgency jl.company) = false := by
      cases hex : ex <;> cases hag : isRecruitmentAgency jl.company <;> simp_all
    unfold processListing
    rw [hb]
    simp [enhance]
  · intro hex hag
    unfold processListing
    rw [hex, hag]
    simp
  · intro hag hn he hsal hd ht
    have hscore : calculateLeadScore (enhance jl d hm) = 30 := by
      unfold calculateLeadScore rawLeadScore
      have hsal' : truthy (enhance jl d hm).salary = false := hsal
      have hn' : ((enhance jl d hm).hiringManager.bind HiringManager.name) =
          (hm.bind HiringManager.name) := rfl
      have he' : ((enhance jl d hm).hiringManager.bind HiringManager.email) =
          (hm.bind HiringManager.email) := rfl
      have hag' : isRecruitmentAgency (enhance jl d hm).company = true := hag
      rw [hn', he', hag', hn, he, hsal', hd, ht]
      norm_num
    refine ⟨hscore, ?_⟩
    unfold processListing
    by_cases hb : (ex && isRecruitmentAgency jl.company) = true
    · rw [hb]; simp
    · rw [Bool.not_eq_true] at hb
      rw [hb]
      simp only [Bool.false_eq_true, if_false]
      have : ¬(40 : ℤ) < 30 := by norm_num
      simp [enhance] at hscore
      simp [hscore, this]

/-- C2 witness: the amended iff applied at a concrete non-skipped input
(a non-agency listing, which scores 80 and is persisted). -/
theorem c2_threshold_amended_witness :
    (¬(false = true ∧ isRecruitmentAgency jlA.company = true)) ∧
    ((processListing false "J1" jlA "" none).isSome = true ↔
      40 < calculateLeadScore (enhance jlA "" none)) :=
  ⟨by decide, (c2_threshold_amended false "J1" jlA "" none).1 (by decide)⟩

/-! ### C10: scoring alone does not exclude agencies -/

/-- C10: a concrete agency-company listing (company matching the keyword
list) with a contact name and email scores 65 > 40, and with
`excludeAgencies` false it is persisted as a Lead with `isQualified`
true. -/
theorem c10_agency_lead_persisted :
    isRecruitmentAgency agencyListing.company = true ∧
    calculateLeadScore (enhance agencyListing "" (some agencyHM)) = 65 ∧
    (65 : ℤ) > 40 ∧
    (processListing false "J2" agencyListing "" (some agencyHM)).map Lead.isQualified =
      some true ∧
    (processListing false "J2" agencyListing "" (some agencyHM)).map Lead.leadScore =
      some 65 := by
  decide

/-! ### C3: pagination error handling -/

/-- C3 counterexample: the claim says a page whose fetch fails stops
pagination, but the loop catches the error and continues: on a run whose
second page fails, the code still fetches the third page and returns its
listing, while the spec's stop-on-error behavior would not. -/
theorem c3_counterexample :
    searchJobsPages pagesWithMidError = [jlA, jlB] ∧
    searchJobsPagesSpecStop pagesWithMidError = [jlA] ∧
    searchJobsPages pagesWithMidError ≠ searchJobsPagesSpecStop pagesWithMidError := by
  decide

/-- C3 amended: a fetch error on one page is logged and that page is
skipped, and pagination continues with the later pages: the run with the
failing page collects exactly what the same run without that page
collects.  The Job does not fail (the error is caught inside the loop) and
the listings gathered on the other pages still proceed to scoring. -/
theorem c3_error_page_skipped_amended (pre post : List PageResult) :
    searchJobsPages (pre ++ PageResult.fetchError :: post) =
      searchJobsPages (pre ++ post) := by
  induction pre with
  | nil => simp [searchJobsPages]
  | cons h t ih =>
    cases h with
    | fetchError => simpa [searchJobsPages] using ih
    | fetched ls hn => cases hn <;> simp [searchJobsPages, ih]

/-! ### C5: cancellation transitions -/

/-- C5 counterexample: the cancellation handler only rejects status
`completed`, so a Job already in the terminal state `failed` whose queue
entry still exists (failed queue jobs are retained) is moved to
`cancelled` — contradicting "transitions to cancelled only from pending or
running". -/
theorem c5_counterexample :
    deleteJob (some JobStatus.failed) true =
      (CancelResponse.cancelOk, some JobStatus.cancelled) ∧
    JobStatus.failed ≠ JobStatus.pending ∧
    JobStatus.failed ≠ JobStatus.running := by
  decide

/-- C5 amended: a cancel request is rejected exactly when the Job's status
is `completed`; for every other status (pending, running, and also the
terminal failed and cancelled) the handler marks the Job `cancelled` iff
the queue still holds its entry, and otherwise changes nothing. -/
theorem c5_cancel_amended (s : JobStatus) (q : Bool) :
    deleteJob (some JobStatus.completed) q =
      (CancelResponse.forbidden, some JobStatus.completed) ∧
    ((deleteJob (some s) q).1 = CancelResponse.cancelOk ↔
      (s ≠ JobStatus.completed ∧ q = true)) ∧
    ((deleteJob (some s) q).1 ≠ CancelResponse.cancelOk →
      (deleteJob (some s) q).2 = some s) := by
  cases s <;> cases q <;> exact ⟨by decide, by decide, by decide⟩

/-- C5 witness: the no-change branch of the amended statement applied
concretely — a running Job whose queue entry is gone keeps its status. -/
theorem c5_cancel_amended_witness :
    (deleteJob (some JobStatus.running) false).1 ≠ CancelResponse.cancelOk ∧
    (deleteJob (some JobStatus.running) false).2 = some JobStatus.running :=
  ⟨by decide, (c5_cancel_amended JobStatus.running false).2.2 (by decide)⟩

/-! ### C8: export marking -/

/-- C8 counterexample: the export-marking update filters on `jobUrl`
alone, not on the owning Job: marking job A's single exported lead also
mutates job B's row that shares the same `jobUrl`, so rows of other Jobs
are not left unchanged. -/
theorem c8_counterexample :
    rowOfJobB.jobId ≠ rowOfJobA.jobId ∧
    markExported [rowOfJobA.jobUrl] 0 [rowOfJobA, rowOfJobB] =
      [markRow 0 rowOfJobA, markRow 0 rowOfJobB] ∧
    markRow 0 rowOfJobB ≠ rowOfJobB := by
  decide

/-- C8 amended: the export-marking step marks rows purely by `jobUrl`: a
row is set to `exportedToSheets = true` with `exportedAt` filled exactly
when its `jobUrl` equals the `jobUrl` of one of the exported leads —
including rows belonging to other Jobs that share such a url — and every
row with no matching `jobUrl` is left unchanged.  Since every Lead row of
the owning Job came from an exported lead, all of that Job's rows are
marked. -/
theorem c8_mark_by_jobUrl_amended (urls : List String) (t : ℕ) (table : List LeadRow) :
    markExported urls t table =
      table.map (fun r => if urls.contains r.jobUrl then markRow t r else r) := by
  induction urls generalizing table with
  | nil =>
    simp [markExported]
  | cons u us ih =>
    have hstep : markExported (u :: us) t table =
        markExported us t (markExportedPass u t table) := by
      simp [markExported]
    rw [hstep, ih, markExportedPass, List.map_map]
    congr 1
    funext r
    by_cases hru : r.jobUrl == u
    · have hru' : r.jobUrl = u := by simpa using hru
      simp only [Function.comp_apply, hru, if_true]
      have hmark : (markRow t r).jobUrl = r.jobUrl := rfl
      rw [hmark]
      have hidem : markRow t (markRow t r) = markRow t r := rfl
      cases hc : us.contains r.jobUrl <;>
        simp [hc, hidem, List.contains_cons, hru']
    · have hru' : (r.jobUrl == u) = false := by simpa using hru
      have hne : r.jobUrl ≠ u := by simpa using hru
      simp only [Function.comp_apply, hru', if_false]
      simp [List.contains_cons, hru', hne]

/-! ### C9: submission validation -/

/-- C9 counterexample: the zod schema uses `z.number().min(1).max(20)`
with no integrality check, so a submission whose `maxPages` is the
non-integer 5/2 passes validation and (with credentials configured)
creates a pending Job — the claim says a non-integer `maxPages` is
rejected. -/
theorem c9_counterexample :
    validateSearchCriteria nonIntegerCriteria = true ∧
    (∀ k : ℤ, ((5 : ℚ)/2) ≠ (k : ℚ)) ∧
    postJob nonIntegerCriteria true "id-1" =
      (PostResponse.created "id-1" JobStatus.pending, some JobStatus.pending) := by
  have hv : validateSearchCriteria nonIntegerCriteria = true := by
    simp [validateSearchCriteria, nonIntegerCriteria]
    norm_num
  refine ⟨hv, ?_, ?_⟩
  · intro k h
    rw [div_eq_iff (by norm_num : (2 : ℚ) ≠ 0)] at h
    have h5 : (5 : ℤ) = k * 2 := by exact_mod_cast h
    omega
  · simp [postJob, hv]

/-- C9 amended: the submission interface accepts a SearchSpecification iff
keywords and location are present non-empty strings and `maxPages`, when
given, is a number between 1 and 20 inclusive (integrality is not
enforced); a specification failing validation is rejected synchronously
with no Job record created; and an accepted submission with credentials
configured creates the Job with initial status `pending` and returns its
id. -/
theorem c9_validation_amended (c : RawSearchCriteria) (creds : Bool) (newId : String) :
    (validateSearchCriteria c = true ↔
        (∃ s, c.keywords = some s ∧ s.data ≠ []) ∧
        (∃ s, c.location = some s ∧ s.data ≠ []) ∧
        (∀ n : ℚ, c.maxPages = some n → 1 ≤ n ∧ n ≤ 20)) ∧
    (validateSearchCriteria c = false →
        postJob c creds newId = (PostResponse.badRequest, none)) ∧
    (validateSearchCriteria c = true → creds = true →
        postJob c creds newId =
          (PostResponse.created newId JobStatus.pending, some JobStatus.pending)) := by
  refine ⟨?_, ?_, ?_⟩
  · unfold validateSearchCriteria
    rcases hk : c.keywords with _ | s₁ <;> rcases hl : c.location with _ | s₂ <;>
      rcases hmp : c.maxPages with _ | n <;>
        simp [hk, hl, hmp, List.isEmpty_iff, and_assoc]
  · intro h
    simp [postJob, h]
  · intro h hc
    subst hc
    simp [postJob, h]

/-- C9 witness: the amended acceptance branch applied at a concrete valid
payload. -/
theorem c9_validation_amended_witness :
    validateSearchCriteria plainCriteria = true ∧
    postJob plainCriteria true "id-2" =
      (PostResponse.created "id-2" JobStatus.pending, some JobStatus.pending) :=
  ⟨by decide, (c9_validation_amended plainCriteria true "id-2").2.2 (by decide) rfl⟩

/-! ### C7: the leadsGenerated counter -/

theorem runListings_inv (los : List ListingOutcome) (st : LoopState)
    (h1 : st.validLeadsLen = st.persistedLeadRows)
    (h2 : st.leadsGeneratedDb = st.persistedLeadRows) :
    (runListings st los).validLeadsLen = (runListings st los).persistedLeadRows ∧
    (runListings st los).leadsGeneratedDb = (runListings st los).persistedLeadRows ∧
    st.leadsGeneratedDb ≤ (runListings st los).leadsGeneratedDb := by
  induction los generalizing st with
  | nil => exact ⟨h1, h2, le_refl _⟩
  | cons o rest ih =>
    have hcons : runListings st (o :: rest) = runListings (stepListing st o) rest := by
      simp [runListings]
    rw [hcons]
    cases o with
    | skippedAgency => exact ih st h1 h2
    | extractionError => exact ih st h1 h2
    | processed q =>
      have h1' : (stepListing st (.processed q)).validLeadsLen =
          (stepListing st (.processed q)).persistedLeadRows := by
        simp [stepListing, h1]
      have h2' : (stepListing st (.processed q)).leadsGeneratedDb =
          (stepListing st (.processed q)).persistedLeadRows := by
        simp [stepListing, h1]
      have hstep : st.leadsGeneratedDb ≤ (stepListing st (.processed q)).leadsGeneratedDb := by
        simp only [stepListing]
        omega
      obtain ⟨a, b, cmono⟩ := ih (stepListing st (.processed q)) h1' h2'
      exact ⟨a, b, le_trans hstep cmono⟩

/-- C7: over any run of the per-listing loop from a freshly created Job,
the `leadsGenerated` column equals the number of Lead rows persisted for
the Job (the completion update does not touch the counter, so this is the
value at job-completion time), and the counter never decreases as the loop
advances (every prefix of the run reports a value no larger than the full
run's). -/
theorem c7_leads_counter (los pre suf : List ListingOutcome) :
    (runListings initialLoopState los).leadsGeneratedDb =
      (runListings initialLoopState los).persistedLeadRows ∧
    (runListings initialLoopState pre).leadsGeneratedDb ≤
      (runListings initialLoopState (pre ++ suf)).leadsGeneratedDb := by
  constructor
  · exact (runListings_inv los initialLoopState rfl rfl).2.1
  · have happ : runListings initialLoopState (pre ++ suf) =
        runListings (runListings initialLoopState pre) suf := by
      simp [runListings, List.foldl_append]
    rw [happ]
    have hpre := runListings_inv pre initialLoopState rfl rfl
    exact (runListings_inv suf (runListings initialLoopState pre) hpre.1 hpre.2.1).2.2

/-! ### C6: progress monotonicity -/

theorem jsRound_nonneg {q : ℚ} (h : 0 ≤ q) : 0 ≤ jsRound q := by
  unfold jsRound
  exact Int.le_floor.mpr (by push_cast; linarith)

theorem jsRound_le_100 {q : ℚ} (h : q ≤ 100) : jsRound q ≤ 100 := by
  unfold jsRound
  have hlt : ⌊q + 1/2⌋ < (101 : ℤ) := by
    rw [Int.floor_lt]
    push_cast
    linarith
  omega

theorem jsRound_mono {a b : ℚ} (h : a ≤ b) : jsRound a ≤ jsRound b :=
  Int.floor_mono (by linarith)

theorem ratio_mono (m : ℕ) {i j : ℕ} (h : i ≤ j) (c : ℚ) (hc : 0 ≤ c) :
    ((i : ℚ) + 1) / (m : ℚ) * c ≤ ((j : ℚ) + 1) / (m : ℚ) * c := by
  have hij : ((i : ℚ) + 1) ≤ ((j : ℚ) + 1) := by
    have : (i : ℚ) ≤ (j : ℚ) := by exact_mod_cast h
    linarith
  have hm0 : (0 : ℚ) ≤ ((m : ℚ))⁻¹ := inv_nonneg.mpr (by positivity)
  rw [div_eq_mul_inv, div_eq_mul_inv]
  exact mul_le_mul_of_nonneg_right (mul_le_mul_of_nonneg_right hij hm0) hc

theorem ratio_nonneg (m i : ℕ) (c : ℚ) (hc : 0 ≤ c) :
    0 ≤ ((i : ℚ) + 1) / (m : ℚ) * c := by positivity

theorem ratio_le {m i : ℕ} (h : i + 1 ≤ m) (c : ℚ) (hc : 0 ≤ c) :
    ((i : ℚ) + 1) / (m : ℚ) * c ≤ c := by
  rcases Nat.eq_zero_or_pos m with hm | hm
  · omega
  · have hm' : (0 : ℚ) < m := by exact_mod_cast hm
    have hi : ((i : ℚ) + 1) ≤ m := by exact_mod_cast h
    have h1 : ((i : ℚ) + 1) / m ≤ 1 := (div_le_one hm').mpr hi
    calc ((i : ℚ) + 1) / m * c ≤ 1 * c :=
          mul_le_mul_of_nonneg_right h1 hc
      _ = c := one_mul c

theorem discVal_mono (m : ℕ) {i j : ℕ} (h : i ≤ j) : discVal m i ≤ discVal m j := by
  unfold discVal
  have h1 := ratio_mono m h (100 : ℚ) (by norm_num)
  have h2 := jsRound_mono h1
  have h3 : (jsRound (((i : ℚ) + 1) / (m : ℚ) * 100) : ℚ) ≤
      (jsRound (((j : ℚ) + 1) / (m : ℚ) * 100) : ℚ) := by exact_mod_cast h2
  linarith

theorem discVal_ge_10 (m i : ℕ) : 10 ≤ discVal m i := by
  unfold discVal
  have h0 := jsRound_nonneg (ratio_nonneg m i 100 (by norm_num))
  have h1 : (0 : ℚ) ≤ (jsRound (((i : ℚ) + 1) / (m : ℚ) * 100) : ℚ) := by
    exact_mod_cast h0
  linarith

theorem discVal_le_70 {m i : ℕ} (h : i + 1 ≤ m) : discVal m i ≤ 70 := by
  unfold discVal
  have h0 := jsRound_le_100 (ratio_le h 100 (by norm_num))
  have h1 : (jsRound (((i : ℚ) + 1) / (m : ℚ) * 100) : ℚ) ≤ 100 := by
    exact_mod_cast h0
  linarith

theorem discoveryEvents_mem_ge (m : ℕ) :
    ∀ (ps : List PageResult) (idx : ℕ) (x : ℚ),
      x ∈ discoveryEvents m ps idx → discVal m idx ≤ x := by
  intro ps
  induction ps with
  | nil => intro idx x hx; simp [discoveryEvents] at hx
  | cons p rest ih =>
    intro idx x hx
    cases p with
    | fetchError =>
      simp only [discoveryEvents] at hx
      exact le_trans (discVal_mono m (Nat.le_succ idx)) (ih (idx + 1) x hx)
    | fetched ls hn =>
      cases hn with
      | false =>
        simp only [discoveryEvents, List.mem_singleton] at hx
        exact le_of_eq hx.symm
      | true =>
        simp only [discoveryEvents, List.mem_cons] at hx
        rcases hx with rfl | hx'
        · exact le_refl _
        · exact le_trans (discVal_mono m (Nat.le_succ idx)) (ih (idx + 1) x hx')

theorem discoveryEvents_mem_le_70 (m : ℕ) :
    ∀ (ps : List PageResult) (idx : ℕ) (x : ℚ),
      x ∈ discoveryEvents m ps idx → idx + ps.length ≤ m → x ≤ 70 := by
  intro ps
  induction ps with
  | nil => intro idx x hx _; simp [discoveryEvents] at hx
  | cons p rest ih =>
    intro idx x hx hlen
    simp only [List.length_cons] at hlen
    cases p with
    | fetchError =>
      simp only [discoveryEvents] at hx
      exact ih (idx + 1) x hx (by omega)
    | fetched ls hn =>
      cases hn with
      | false =>
        simp only [discoveryEvents, List.mem_singleton] at hx
        subst hx
        exact discVal_le_70 (by omega)
      | true =>
        simp only [discoveryEvents, List.mem_cons] at hx
        rcases hx with rfl | hx'
        · exact discVal_le_70 (by omega)
        · exact ih (idx + 1) x hx' (by omega)

theorem discoveryEvents_sorted (m : ℕ) :
    ∀ (ps : List PageResult) (idx : ℕ),
      List.Pairwise (· ≤ ·) (discoveryEvents m ps idx) := by
  intro ps
  induction ps with
  | nil => intro idx; simp [discoveryEvents]
  | cons p rest ih =>
    intro idx
    cases p with
    | fetchError => simpa only [discoveryEvents] using ih (idx + 1)
    | fetched ls hn =>
      cases hn with
      | false => simp [discoveryEvents]
      | true =>
        simp only [discoveryEvents]
        rw [List.pairwise_cons]
        refine ⟨fun x hx => ?_, ih (idx + 1)⟩
        exact le_trans (discVal_mono m (Nat.le_succ idx))
          (discoveryEvents_mem_ge m rest (idx + 1) x hx)

theorem enrichVal_mono (n : ℕ) {c d : ℕ} (h : c ≤ d) : enrichVal n c ≤ enrichVal n d := by
  unfold enrichVal
  have := ratio_mono n h (20 : ℚ) (by norm_num)
  linarith

theorem enrichVal_ge_70 (n c : ℕ) : 70 ≤ enrichVal n c := by
  unfold enrichVal
  have := ratio_nonneg n c 20 (by norm_num)
  linarith

theorem enrichVal_le_90 {n c : ℕ} (h : c + 1 ≤ n) : enrichVal n c ≤ 90 := by
  unfold enrichVal
  have := ratio_le h 20 (by norm_num : (0:ℚ) ≤ 20)
  linarith

theorem enrichEvents_mem_ge (n : ℕ) :
    ∀ (los : List ListingOutcome) (c : ℕ) (x : ℚ),
      x ∈ enrichEvents n los c → enrichVal n c ≤ x := by
  intro los
  induction los with
  | nil => intro c x hx; simp [enrichEvents] at hx
  | cons o rest ih =>
    intro c x hx
    cases o with
    | skippedAgency => exact ih c x (by simpa only [enrichEvents] using hx)
    | extractionError => exact ih c x (by simpa only [enrichEvents] using hx)
    | processed q =>
      simp only [enrichEvents, List.mem_cons] at hx
      rcases hx with rfl | hx'
      · exact le_refl _
      · exact le_trans (enrichVal_mono n (Nat.le_succ c)) (ih (c + 1) x hx')

theorem enrichEvents_mem_le_90 (n : ℕ) :
    ∀ (los : List ListingOutcome) (c : ℕ) (x : ℚ),
      x ∈ enrichEvents n los c → c + countProcessed los ≤ n → x ≤ 90 := by
  intro los
  induction los with
  | nil => intro c x hx _; simp [enrichEvents] at hx
  | cons o rest ih =>
    intro c x hx hcount
    cases o with
    | skippedAgency =>
      simp only [countProcessed] at hcount
      exact ih c x (by simpa only [enrichEvents] using hx) hcount
    | extractionError =>
      simp only [countProcessed] at hcount
      exact ih c x (by simpa only [enrichEvents] using hx) hcount
    | processed q =>
      simp only [countProcessed] at hcount
      simp only [enrichEvents, List.mem_cons] at hx
      rcases hx with rfl | hx'
      · exact enrichVal_le_90 (by omega)
      · exact ih (c + 1) x hx' (by omega)

theorem enrichEvents_sorted (n : ℕ) :
    ∀ (los : List ListingOutcome) (c : ℕ),
      List.Pairwise (· ≤ ·) (enrichEvents n los c) := by
  intro los
  induction los with
  | nil => intro c; simp [enrichEvents]
  | cons o rest ih =>
    intro c
    cases o with
    | skippedAgency => simpa only [enrichEvents] using ih c
    | extractionError => simpa only [enrichEvents] using ih c
    | processed q =>
      simp only [enrichEvents]
      rw [List.pairwise_cons]
      refine ⟨fun x hx => ?_, ih (c + 1)⟩
      exact le_trans (enrichVal_mono n (Nat.le_succ c))
        (enrichEvents_mem_ge n rest (c + 1) x hx)

theorem countProcessed_le_length : ∀ los : List ListingOutcome,
    countProcessed los ≤ los.length := by
  intro los
  induction los with
  | nil => simp [countProcessed]
  | cons o rest ih =>
    cases o <;> simp only [countProcessed, List.length_cons] <;> omega

/-- C6: over every completed run of the worker, the sequence of reported
progress values (0 at creation, 10 after login, the discovery band, the
enrichment band, 90 before export when leads exist, 100 at completion) is
non-decreasing, and the value at completion is exactly 100. -/
theorem c6_progress_monotone (m : ℕ) (pages : List PageResult)
    (outcomes : List ListingOutcome) (hpages : pages.length ≤ m) :
    List.Sorted (· ≤ ·) (progressEvents m pages outcomes) ∧
    (progressEvents m pages outcomes).getLast? = some 100 := by
  constructor
  · show List.Pairwise (· ≤ ·) (progressEvents m pages outcomes)
    unfold progressEvents
    have hd10 : ∀ x ∈ discoveryEvents m pages 0, (10 : ℚ) ≤ x := fun x hx =>
      le_trans (discVal_ge_10 m 0) (discoveryEvents_mem_ge m pages 0 x hx)
    have hd70 : ∀ x ∈ discoveryEvents m pages 0, x ≤ (70 : ℚ) := fun x hx =>
      discoveryEvents_mem_le_70 m pages 0 x hx (by omega)
    have he70 : ∀ x ∈ enrichEvents outcomes.length outcomes 0, (70 : ℚ) ≤ x := fun x hx =>
      le_trans (enrichVal_ge_70 outcomes.length 0)
        (enrichEvents_mem_ge outcomes.length outcomes 0 x hx)
    have he90 : ∀ x ∈ enrichEvents outcomes.length outcomes 0, x ≤ (90 : ℚ) := fun x hx =>
      enrichEvents_mem_le_90 outcomes.length outcomes 0 x hx
        (by simpa using countProcessed_le_length outcomes)
    have hif : ∀ x ∈ (if 0 < leadsCount outcomes then ([90] : List ℚ) else []), x = 90 := by
      split <;> simp
    rw [List.pairwise_append]
    refine ⟨?_, by simp, ?_⟩
    · rw [List.pairwise_cons]
      refine ⟨?_, ?_⟩
      · intro b hb
        simp only [List.mem_cons, List.mem_append] at hb
        rcases hb with rfl | (hb' | hb') | hb'
        · norm_num
        · linarith [hd10 b hb']
        · linarith [he70 b hb']
        · rw [hif b hb']; norm_num
      · rw [List.pairwise_cons]
        refine ⟨?_, ?_⟩
        · intro b hb
          simp only [List.mem_append] at hb
          rcases hb with (hb' | hb') | hb'
          · exact hd10 b hb'
          · linarith [he70 b hb']
          · rw [hif b hb']; norm_num
        · rw [List.pairwise_append]
          refine ⟨?_, ?_, ?_⟩
          · rw [List.pairwise_append]
            refine ⟨discoveryEvents_sorted m pages 0,
              enrichEvents_sorted outcomes.length outcomes 0, ?_⟩
            intro a ha b hb
            exact le_trans (hd70 a ha) (he70 b hb)
          · split <;> simp
          · intro a ha b hb
            rw [hif b hb]
            simp only [List.mem_append] at ha
            rcases ha with ha' | ha'
            · linarith [hd70 a ha']
            · exact he90 a ha'
    · intro a ha b hb
      simp only [List.mem_singleton] at hb
      subst hb
      simp only [List.mem_cons, List.mem_append] at ha
      rcases ha with rfl | rfl | (ha' | ha') | ha'
      · norm_num
      · norm_num
      · linarith [hd70 a ha']
      · linarith [he90 a ha']
      · rw [hif a ha']; norm_num
  · unfold progressEvents
    rw [List.getLast?_concat]

/-- C6 witness: the progress sequence of a concrete run (three pages with
one failing fetch, three listings, one persisted lead) is sorted and ends
at 100. -/
theorem c6_progress_monotone_witness :
    pagesWithMidError.length ≤ 3 ∧
    (List.Sorted (· ≤ ·) (progressEvents 3 pagesWithMidError sampleOutcomes) ∧
      (progressEvents 3 pagesWithMidError sampleOutcomes).getLast? = some 100) :=
  ⟨by decide, c6_progress_monotone 3 pagesWithMidError sampleOutcomes (by decide)⟩

end NewScrape
